import Mathlib

/-!
Verification of the plaso extraction front-end
(`plaso/frontend/frontend.py`) against its natural-language
specification.  Python strings are embedded as `List Char`; the
selection-expression parser, the TSK-partition / VSS-store resolution
logic, the worker-pool sizing computation and the multi-process
orchestration loops of `ExtractionFrontend` are translated as
executable Lean functions below.  Exceptions are modelled by explicit
result constructors; the external `multiprocessing.Process` and
`foreman.Foreman` collaborators (the latter not part of the sources,
only its call sites are) are modelled by small state records, as the
specification describes them.
-/

/-- Python strings are embedded as lists of characters. -/
abbrev PyStr := List Char

/-- Characters stripped by Python `str.strip()`: space, tab, newline,
carriage return, vertical tab and form feed. -/
def pyWS (c : Char) : Bool :=
  c == ' ' || c == '\t' || c == '\n' || c == '\r' || c == '\x0b' || c == '\x0c'

/-- Python `str.strip()`: drop leading and trailing whitespace. -/
def pyStrip (cs : PyStr) : PyStr :=
  ((cs.dropWhile pyWS).reverse.dropWhile pyWS).reverse

/-- Value of a decimal digit character, `none` for a non-digit. -/
def digitVal? (c : Char) : Option Nat :=
  if '0' ≤ c ∧ c ≤ '9' then some (c.toNat - 48) else none

/-- Accumulating decimal parser over a run of digit characters;
`none` as soon as a non-digit is seen. -/
def parseDigitsAux (acc : Nat) : PyStr → Option Nat
  | [] => some acc
  | c :: cs =>
      match digitVal? c with
      | some d => parseDigitsAux (acc * 10 + d) cs
      | none => none

/-- Parses a non-empty run of decimal digits; `none` on the empty
string or on any non-digit character. -/
def parseDigits : PyStr → Option Nat
  | [] => none
  | c :: cs => parseDigitsAux 0 (c :: cs)

/-- Python `int(s, 10)`: surrounding whitespace is allowed, then an
optional sign, then one or more decimal digits; anything else raises
`ValueError`, modelled as `none`. -/
def pyInt? (cs : PyStr) : Option Int :=
  match pyStrip cs with
  | [] => none
  | c :: rest =>
      if c = '-' then (parseDigits rest).map (fun n : Nat => -(n : Int))
      else if c = '+' then (parseDigits rest).map (fun n : Nat => (n : Int))
      else (parseDigits (c :: rest)).map (fun n : Nat => (n : Int))

/-- Python `s.split(',')`; the empty string yields `['']`. -/
def pySplitComma : PyStr → List PyStr
  | [] => [[]]
  | c :: rest =>
      if c = ',' then [] :: pySplitComma rest
      else
        match pySplitComma rest with
        | h :: t => (c :: h) :: t
        | [] => [[c]]

/-- Python `'..' in s`: does the string contain two consecutive dots? -/
def hasDotDot : PyStr → Bool
  | [] => false
  | [_] => false
  | c1 :: c2 :: rest =>
      if c1 = '.' ∧ c2 = '.' then true else hasDotDot (c2 :: rest)

/-- Python `s.split('..')`: split on non-overlapping occurrences of
`..`, scanning left to right. -/
def splitDD : PyStr → List PyStr
  | [] => [[]]
  | [c] => [[c]]
  | c1 :: c2 :: rest =>
      if c1 = '.' ∧ c2 = '.' then [] :: splitDD rest
      else
        match splitDD (c2 :: rest) with
        | h :: t => (c1 :: h) :: t
        | [] => [[c1]]

/-- Outcome of `ExtractionFrontend._ParseVssStores`: a returned list,
the documented `BadConfigOption`, or the undocumented `ValueError`
escaping from tuple unpacking of a `split('..')` result that does not
have exactly two parts. -/
inductive PResult where
  | ok (stores : List Int)
  | badConfig
  | valueErr
  deriving DecidableEq, Repr

/-- The `if store_number not in stores: stores.append(store_number)`
idiom of `_ParseVssStores`. -/
def addStore (stores : List Int) (n : Int) : List Int :=
  if n ∈ stores then stores else stores ++ [n]

/-- The integers of Python `range(first, last + 1)` as a list. -/
def pyRangeIncl (first last : Int) : List Int :=
  (List.range (last + 1 - first).toNat).map (fun k => first + (k : Int))

/-- The `for store_number in range(first_store, last_store + 1)` loop
of `_ParseVssStores`. -/
def addRange (stores : List Int) (first last : Int) : List Int :=
  (pyRangeIncl first last).foldl addStore stores

/-- One iteration of the token loop of `_ParseVssStores`: a token
containing `..` is split and unpacked into exactly two bounds (three or
more parts raise `ValueError` from the unpacking itself, before any
`int` conversion), the bounds are converted with `int(_, 10)` and the
inclusive range is appended; otherwise the token itself is converted
with `int(_, 10)`. `int` failures raise `BadConfigOption`. -/
def processToken (stores : List Int) (tok : PyStr) : PResult :=
  if hasDotDot tok then
    match splitDD tok with
    | [first, last] =>
        match pyInt? first, pyInt? last with
        | some f, some l => .ok (addRange stores f l)
        | _, _ => .badConfig
    | _ => .valueErr
  else
    match pyInt? tok with
    | some n => .ok (addStore stores n)
    | none => .badConfig

/-- The token loop of `_ParseVssStores` over the comma-separated
tokens, threading the accumulated store list. -/
def parseTokens (stores : List Int) : List PyStr → PResult
  | [] => .ok stores
  | tok :: rest =>
      match processToken stores tok with
      | .ok stores' => parseTokens stores' rest
      | .badConfig => .badConfig
      | .valueErr => .valueErr

/-- Python `sorted` on integer lists (a stable ascending sort). -/
def pySorted (l : List Int) : List Int :=
  List.insertionSort (· ≤ ·) l

/-- `ExtractionFrontend._ParseVssStores`: `None` or the empty string is
falsy and yields `[]`; otherwise the comma-separated tokens are parsed
and the deduplicated accumulator is returned sorted. -/
def _ParseVssStores : Option PyStr → PResult
  | none => .ok []
  | some cs =>
      if cs.isEmpty then .ok []
      else
        match parseTokens [] (pySplitComma cs) with
        | .ok stores => .ok (pySorted stores)
        | .badConfig => .badConfig
        | .valueErr => .valueErr

/-- Decimal digit characters of a natural number, most significant
first (the digits of Python `str(n)` for `n ≥ 0`). -/
def natDigits (n : Nat) : List Char :=
  if _h : n < 10 then [Nat.digitChar n]
  else natDigits (n / 10) ++ [Nat.digitChar (n % 10)]
decreasing_by exact Nat.div_lt_self (by omega) (by omega)

/-- Python `str(i)` for an integer. -/
def intToPyStr (i : Int) : PyStr :=
  if i < 0 then '-' :: natDigits i.natAbs else natDigits i.toNat

/-- Comma-joining of rendered tokens (`','.join(tokens)`). -/
def joinComma : List PyStr → PyStr
  | [] => []
  | [t] => t
  | t :: rest => t ++ ',' :: joinComma rest

/-- Renders an integer list as the comma-separated selection
expression `str(l[0]) + ',' + str(l[1]) + ...`. -/
def renderVss (l : List Int) : PyStr :=
  joinComma (l.map intToPyStr)

/-- First-occurrence deduplication, exactly the accumulation performed
by the token loop on a list of single-integer tokens. -/
def dedupStores (l : List Int) : List Int :=
  l.foldl addStore []

/-- Sorted, deduplicated view of an integer list: the specification's
`sorted(dedup(l))`. -/
def sortedDedup (l : List Int) : List Int :=
  pySorted (dedupStores l)

/-- The specification's `clamp(x, lo, hi)`. -/
def specClamp (x lo hi : Int) : Int :=
  max lo (min hi x)

/-- `ExtractionFrontend.MINIMUM_WORKERS`. -/
def MINIMUM_WORKERS : Int := 2

/-- `ExtractionFrontend.MAXIMUM_WORKERS`. -/
def MAXIMUM_WORKERS : Int := 15

/-- The worker-pool sizing computation at the top of
`_ProcessSourceMultiProcessMode`: `getattr(options, 'workers', 0)` is
the requested count (0 when unset); a requested count below 1 is
replaced by `cpu_count() - 3` clamped into
`[MINIMUM_WORKERS, MAXIMUM_WORKERS]`. -/
def effectiveWorkerCount (requested cpuCount : Int) : Int :=
  if requested < 1 then
    let cpus := cpuCount - 3
    let cpus :=
      if cpus ≤ MINIMUM_WORKERS then MINIMUM_WORKERS
      else if cpus ≥ MAXIMUM_WORKERS then MAXIMUM_WORKERS
      else cpus
    cpus
  else requested

/-- One TSK volume as exposed by the external dfvfs volume system: an
identifier (such as `p1`) and the byte offset of its first extent. -/
structure TSKVolume where
  identifier : PyStr
  extentOffset : Int
  deriving DecidableEq, Repr

/-- Outcome of the partition prompt loop of
`_GetPartionIdentifierFromUser`.  An input of `none` models the user
pressing Ctrl^C (`KeyboardInterrupt`); exhausting the input list means
the loop is still waiting for more input. -/
inductive PromptResult where
  | selected (id : PyStr) (rest : List (Option PyStr))
  | interrupted (rest : List (Option PyStr))
  | blocked
  | listingError
  deriving DecidableEq, Repr

/-- The `while True` read loop of `_GetPartionIdentifierFromUser`: the
read line is stripped and accepted only if it is one of the listed
volume identifiers, otherwise the prompt is repeated. -/
def promptLoop (ids : List PyStr) : List (Option PyStr) → PromptResult
  | [] => .blocked
  | none :: rest => .interrupted rest
  | some s :: rest =>
      let s' := pyStrip s
      if s' ∈ ids then .selected s' rest else promptLoop ids rest

/-- `ExtractionFrontend._GetPartionIdentifierFromUser`: the listing
pass raises `FileSystemScannerError` when some identifier has no
volume, then the read loop runs. -/
def _GetPartionIdentifierFromUser (volumes : List TSKVolume) (ids : List PyStr)
    (inputs : List (Option PyStr)) : PromptResult :=
  if ids.any (fun id => (volumes.find? (fun v => v.identifier == id)).isNone)
  then .listingError
  else promptLoop ids inputs

/-- Outcome of `_GetVolumeTSKPartition`; scan nodes returned by the
external `GetSubNodeByLocation` are modelled as opaque `Nat` handles. -/
inductive TSKOutcome where
  | volume (node : Nat)
  | noPartitions
  | scanAborted
  | runtimeError
  | listingError
  | blocked
  deriving DecidableEq, Repr

/-- The shared tail of every selection branch of
`_GetVolumeTSKPartition`: look up the sub node at `'/' + identifier`,
raising `RuntimeError` when it is missing. -/
def resolveLocation (subNode : PyStr → Option Nat) (id : PyStr) : TSKOutcome :=
  match subNode ('/' :: id) with
  | some node => .volume node
  | none => .runtimeError

/-- The explicit-partition-number branch of `_GetVolumeTSKPartition`:
a number `n > 0` selects the volume at 0-based index `n - 1`; a missing
volume logs a warning and falls through (`none`); a missing sub node is
a hard `RuntimeError`. -/
def tryPartitionNumber (volumes : List TSKVolume) (subNode : PyStr → Option Nat) :
    Option Int → Option TSKOutcome
  | none => none
  | some n =>
      if 0 < n then
        match volumes[(n - 1).toNat]? with
        | some v => some (resolveLocation subNode v.identifier)
        | none => none
      else none

/-- The explicit-byte-offset branch of `_GetVolumeTSKPartition`: the
first volume whose first extent has the requested offset is selected; no
match logs a warning and falls through (`none`). -/
def tryPartitionOffset (volumes : List TSKVolume) (subNode : PyStr → Option Nat) :
    Option Int → Option TSKOutcome
  | none => none
  | some off =>
      match volumes.find? (fun v => v.extentOffset == off) with
      | some v => some (resolveLocation subNode v.identifier)
      | none => none

/-- `ExtractionFrontend._GetVolumeTSKPartition`: an invalid scan
context raises `SourceScannerError`; no identifiers returns `None`;
then the explicit partition number, the explicit byte offset, the
single-partition auto-selection and finally the interactive prompt are
tried in that order.  `KeyboardInterrupt` from the prompt is re-raised
as `SourceScannerError` (`scanAborted`). -/
def _GetVolumeTSKPartition (validCtx : Bool) (volumes : List TSKVolume)
    (ids : List PyStr) (subNode : PyStr → Option Nat)
    (partitionNumber partitionOffset : Option Int)
    (inputs : List (Option PyStr)) : TSKOutcome × List (Option PyStr) :=
  if ¬ validCtx then (.scanAborted, inputs)
  else if ids.isEmpty then (.noPartitions, inputs)
  else
    match tryPartitionNumber volumes subNode partitionNumber with
    | some r => (r, inputs)
    | none =>
        match tryPartitionOffset volumes subNode partitionOffset with
        | some r => (r, inputs)
        | none =>
            if ids.length = 1 then (resolveLocation subNode ids.headI, inputs)
            else
              match _GetPartionIdentifierFromUser volumes ids inputs with
              | .listingError => (.listingError, inputs)
              | .blocked => (.blocked, [])
              | .interrupted rest => (.scanAborted, rest)
              | .selected id rest =>
                  match volumes.find? (fun v => v.identifier == id) with
                  | none => (.runtimeError, rest)
                  | some _ => (resolveLocation subNode id, rest)

/-- One VSS volume as exposed by the external vshadow volume system:
only the identifier (such as `vss1`) matters here. -/
structure VssVolume where
  identifier : PyStr
  deriving DecidableEq, Repr

/-- The normalization pass of `_GetVssStoreIdentifiersFromUser`: each
identifier's volume is looked up (`SourceScannerError`, modelled as
`none`, when missing), the identifier is sliced with `[3:]` and parsed
with `int(_, 10)`, and malformed entries are silently skipped. -/
def normalizeVssIds (volumes : List VssVolume) : List PyStr → Option (List Int)
  | [] => some []
  | id :: rest =>
      match volumes.find? (fun v => v.identifier == id) with
      | none => none
      | some v =>
          match normalizeVssIds volumes rest with
          | none => none
          | some ns =>
              match pyInt? (v.identifier.drop 3) with
              | some n => some (n :: ns)
              | none => some ns

/-- Outcome of `_GetVssStoreIdentifiersFromUser`.  The Python function
returns the empty string `''` when the user enters a blank line; both
that and an empty list are falsy downstream and are modelled as
`selection []`. -/
inductive VssResult where
  | selection (stores : List Int) (rest : List (Option PyStr))
  | interrupted (rest : List (Option PyStr))
  | blocked
  | volumeMissing
  | uncaughtError
  deriving DecidableEq, Repr

/-- The `while True` read loop of `_GetVssStoreIdentifiersFromUser`:
a blank line breaks with the empty selection; the line is parsed with
`_ParseVssStores`, a `BadConfigOption` is caught and replaced by the
empty list (whose set difference against the normalized identifiers is
empty, so the loop breaks and returns it); a `ValueError` escapes
uncaught; a parsed selection breaks when it is contained in the
normalized identifiers and otherwise the prompt is repeated. -/
def vssPromptLoop (normalized : List Int) : List (Option PyStr) → VssResult
  | [] => .blocked
  | none :: rest => .interrupted rest
  | some s :: rest =>
      let s' := pyStrip s
      if s'.isEmpty then .selection [] rest
      else
        match _ParseVssStores (some s') with
        | .valueErr => .uncaughtError
        | .badConfig => .selection [] rest
        | .ok sel =>
            if sel.all (fun n => n ∈ normalized) then .selection sel rest
            else vssPromptLoop normalized rest

/-- `ExtractionFrontend._GetVssStoreIdentifiersFromUser`: identifiers
are normalized; a truthy (non-`None`, non-empty) preferred store list
whose set difference against the normalized identifiers is empty is
returned as-is without any read; otherwise the interactive loop runs. -/
def _GetVssStoreIdentifiersFromUser (volumes : List VssVolume)
    (ids : List PyStr) (vssStores : Option (List Int))
    (inputs : List (Option PyStr)) : VssResult :=
  match normalizeVssIds volumes ids with
  | none => .volumeMissing
  | some normalized =>
      match vssStores with
      | some hint =>
          if hint.isEmpty then vssPromptLoop normalized inputs
          else if hint.all (fun n => n ∈ normalized) then .selection hint inputs
          else vssPromptLoop normalized inputs
      | none => vssPromptLoop normalized inputs

/-- Observable events of `_ProcessSourceMultiProcessMode`, in program
order. -/
inductive MPEvent where
  | startStorage
  | startCollector
  | startWorker (n : Nat)
  | collectorJoin
  | checkStatus
  | collectorExited
  | signalEndOfProcessing
  | workerJoin5 (n : Nat)
  | workerJoined (n : Nat)
  | terminatedWorker (n : Nat)
  | stopMonitoring (n : Nat)
  | reconciled (n : Nat)
  | signalEndOfInputStorageQueue
  | storageJoined
  deriving DecidableEq, Repr

/-- Abstraction of one external `multiprocessing.Process` running a
worker: the process reports alive for `aliveFor` liveness polls of the
drain loop and then has exited with `exitcode`. -/
structure WorkerProc where
  aliveFor : Nat
  exitcode : Int
  deriving DecidableEq, Repr

/-- Modelled from the spec: one entry of `self._worker_processes`
joined with its `foreman.Foreman` monitoring state (the foreman module
is not part of the sources).  Per the specification the foreman answers
`GetLabel` with a label exactly for workers it currently monitors, and
`TerminateProcess` moves a worker out of the monitored state. -/
structure WorkerEntry where
  name : Nat
  proc : WorkerProc
  polls : Nat
  monitored : Bool
  deriving DecidableEq, Repr

/-- The `process_obj.is_alive()` check against the abstract process. -/
def wIsAlive (e : WorkerEntry) : Bool :=
  e.polls < e.proc.aliveFor

/-- One visit to one tracked worker inside the drain loop of
`_ProcessSourceMultiProcessMode` (lines 1243-1284): an unmonitored
worker is joined unconditionally if still alive and then removed; a
monitored live worker gets a status check and a five-second join; a
monitored dead worker with nonzero exit code is terminated and recorded
terminated by the foreman (leaving it tracked but unmonitored); a
monitored dead worker with exit code zero is unregistered and removed. -/
def scanStep (e : WorkerEntry) : List MPEvent × Option WorkerEntry :=
  if ¬ e.monitored then
    ((if wIsAlive e then [.workerJoined e.name] else []) ++ [.reconciled e.name],
      none)
  else if wIsAlive e then
    ([.checkStatus, .workerJoin5 e.name], some { e with polls := e.polls + 1 })
  else if e.proc.exitcode ≠ 0 then
    ([.terminatedWorker e.name], some { e with monitored := false })
  else
    ([.stopMonitoring e.name, .reconciled e.name], none)

/-- One pass of the drain loop over the snapshot
`sorted(self._worker_processes.items())`, collecting the events and the
surviving entries. -/
def scanAll : List WorkerEntry → List MPEvent × List WorkerEntry
  | [] => ([], [])
  | e :: rest =>
      let (evs, e') := scanStep e
      let (evs', rest') := scanAll rest
      (evs ++ evs', e'.toList ++ rest')

/-- The `while self._worker_processes:` drain loop, with explicit fuel
bounding the number of passes (the Python loop blocks as long as some
worker stays alive). -/
def drainLoop : Nat → List WorkerEntry → Option (List MPEvent)
  | _, [] => some []
  | 0, _ :: _ => none
  | Nat.succ fuel, e :: rest =>
      let (evs, survivors) := scanAll (e :: rest)
      match drainLoop fuel survivors with
      | some evs' => some (evs ++ evs')
      | none => none

/-- Creation of `self._worker_processes`: workers `Worker_0 ..
Worker_(n-1)` are started and registered with the foreman exactly when
one is running. -/
def mkEntries (runForeman : Bool) : Nat → List WorkerProc → List WorkerEntry
  | _, [] => []
  | i, p :: ps => ⟨i, p, 0, runForeman⟩ :: mkEntries runForeman (i + 1) ps

/-- The `while self._collection_process.is_alive():` loop: a ten-second
join per interval and, when a foreman runs, a status check of all
workers; the collector exits after `intervals` iterations. -/
def collectLoop (runForeman : Bool) : Nat → List MPEvent
  | 0 => []
  | Nat.succ k =>
      .collectorJoin :: ((if runForeman then [.checkStatus] else []) ++
        collectLoop runForeman k)

/-- The storage, collector and worker process starts at the beginning
of `_ProcessSourceMultiProcessMode`. -/
def startEvents (n : Nat) : List MPEvent :=
  [.startStorage, .startCollector] ++ (List.range n).map .startWorker

/-- The event trace of `_ProcessSourceMultiProcessMode` from the
process starts onward (`start_collection_process` is hardcoded `True`):
processes are started, the collection loop runs until the collector
exits, `SignalEndOfProcessing` is sent when a foreman runs, the drain
loop reconciles every worker, and only then
`SignalEndOfInputStorageQueue` is issued and the storage process is
joined.  `none` when the drain fuel is exhausted. -/
def multiProcessRun (runForeman : Bool) (collectorIntervals : Nat)
    (workers : List WorkerProc) (fuel : Nat) : Option (List MPEvent) :=
  match drainLoop fuel (mkEntries runForeman 0 workers) with
  | none => none
  | some drainEvs =>
      some (startEvents workers.length ++ collectLoop runForeman collectorIntervals ++
        [.collectorExited] ++
        (if runForeman then [.signalEndOfProcessing] else []) ++ drainEvs ++
        [.signalEndOfInputStorageQueue, .storageJoined])

/-! Helper lemmas about the store accumulator. -/

theorem mem_addStore {stores : List Int} {n m : Int} :
    m ∈ addStore stores n ↔ m ∈ stores ∨ m = n := by
  unfold addStore
  split
  · next h =>
      constructor
      · exact Or.inl
      · rintro (h' | rfl)
        · exact h'
        · exact h
  · simp [List.mem_append]

theorem nodup_addStore {stores : List Int} {n : Int} (h : stores.Nodup) :
    (addStore stores n).Nodup := by
  unfold addStore
  split
  · exact h
  · next h' => simp [List.nodup_append, h, h']

theorem nodup_foldl_addStore (l : List Int) :
    ∀ stores : List Int, stores.Nodup → (l.foldl addStore stores).Nodup := by
  induction l with
  | nil => exact fun _ h => h
  | cons a l ih => exact fun s h => ih _ (nodup_addStore h)

theorem nodup_processToken {stores stores' : List Int} {tok : PyStr}
    (h : processToken stores tok = .ok stores') (hn : stores.Nodup) :
    stores'.Nodup := by
  unfold processToken at h
  split at h
  · split at h
    · split at h
      · cases h
        exact nodup_foldl_addStore _ _ hn
      · exact absurd h (by simp)
    · exact absurd h (by simp)
  · split at h
    · cases h
      exact nodup_addStore hn
    · exact absurd h (by simp)

theorem nodup_parseTokens {stores' : List Int} :
    ∀ (toks : List PyStr) (stores : List Int),
      parseTokens stores toks = .ok stores' → stores.Nodup → stores'.Nodup := by
  intro toks
  induction toks with
  | nil =>
      intro stores h hn
      cases h
      exact hn
  | cons t rest ih =>
      intro stores h hn
      unfold parseTokens at h
      cases hp : processToken stores t <;> rw [hp] at h
      · exact ih _ h (nodup_processToken hp hn)
      · exact absurd h (by simp)
      · exact absurd h (by simp)

/-- C10: `_ParseVssStores` applied to a missing (`None`) or empty
expression returns the empty list without raising any error: the empty
selection means that no VSS stores are processed. -/
theorem C10_empty_or_missing_expression_yields_empty_list :
    _ParseVssStores none = .ok [] ∧ _ParseVssStores (some []) = .ok [] :=
  ⟨rfl, rfl⟩

/-- C2: evaluation at the failing input.  A token with two `..`
separators is neither an integer nor a well-formed `A..B` range, yet
the `first_store, last_store = vss_store_range.split('..')` unpacking
sits outside the `try` block, so the resulting `ValueError` escapes
instead of the `BadConfigOption` documented by the function's own
docstring; no partial list is returned either way. -/
theorem C2_multidot_token_escapes_as_valueerror :
    _ParseVssStores (some ("1..2..3".toList)) = .valueErr ∧
    _ParseVssStores (some ("1..2..3".toList)) ≠ .badConfig ∧
    (∀ l, _ParseVssStores (some ("1..2..3".toList)) ≠ .ok l) ∧
    _ParseVssStores (some ("a,2".toList)) = .badConfig := by
  refine ⟨by decide, by decide, fun l h => ?_, by decide⟩
  rw [show _ParseVssStores (some ("1..2..3".toList)) = .valueErr from by decide] at h
  exact PResult.noConfusion h

/-- C4: in multi-process mode a requested worker count below 1
(including the unset default 0) is replaced by
`clamp(cpu_count - 3, MINIMUM_WORKERS, MAXIMUM_WORKERS)`, and a
requested count of at least 1 is used unchanged. -/
theorem C4_effective_worker_count_clamp (requested cpuCount : Int) :
    (requested < 1 →
      effectiveWorkerCount requested cpuCount =
        specClamp (cpuCount - 3) MINIMUM_WORKERS MAXIMUM_WORKERS) ∧
    (1 ≤ requested → effectiveWorkerCount requested cpuCount = requested) := by
  constructor
  · intro h
    simp only [effectiveWorkerCount, if_pos h, specClamp, MINIMUM_WORKERS,
      MAXIMUM_WORKERS, max_def, min_def]
    split_ifs <;> omega
  · intro h
    rw [effectiveWorkerCount, if_neg (by omega)]

theorem C4_effective_worker_count_clamp_witness :
    effectiveWorkerCount 0 20 = specClamp 17 2 15 ∧
    effectiveWorkerCount 7 20 = 7 :=
  ⟨(C4_effective_worker_count_clamp 0 20).1 (by decide),
   (C4_effective_worker_count_clamp 7 20).2 (by decide)⟩

/-- C8: `_ParseVssStores("1,3..5")` returns exactly `[1, 3, 4, 5]`,
and the inverted range token `5..3` raises no error and contributes
zero elements: it maps any accumulator to itself, so a token list
containing it parses exactly like the list without it. -/
theorem C8_example_expression_and_empty_range :
    _ParseVssStores (some ("1,3..5".toList)) = .ok [1, 3, 4, 5] ∧
    (∀ stores, processToken stores ("5..3".toList) = .ok stores) ∧
    (∀ pre post stores,
      parseTokens stores (pre ++ "5..3".toList :: post) =
        parseTokens stores (pre ++ post)) := by
  refine ⟨by decide, fun stores => rfl, fun pre post stores => ?_⟩
  induction pre generalizing stores with
  | nil => rfl
  | cons t pre' ih =>
      simp only [List.cons_append, parseTokens]
      cases processToken stores t with
      | ok s' => exact ih s'
      | badConfig => rfl
      | valueErr => rfl

theorem C8_example_expression_and_empty_range_witness :
    parseTokens [] (["1".toList] ++ "5..3".toList :: ["2".toList]) =
      parseTokens [] (["1".toList] ++ ["2".toList]) :=
  C8_example_expression_and_empty_range.2.2 ["1".toList] ["2".toList] []

/-- C3 (amended): every list returned by `_ParseVssStores` is strictly
ascending — sorted with no duplicates.  (The positivity part of the
original claim fails, see the counterexample.) -/
theorem C3_parse_result_strictly_ascending (s : Option PyStr) (l : List Int)
    (h : _ParseVssStores s = .ok l) : l.Sorted (· < ·) := by
  cases s with
  | none =>
      cases h
      exact List.sorted_nil
  | some cs =>
      simp only [_ParseVssStores] at h
      split at h
      · cases h
        exact List.sorted_nil
      · split at h
        · rename_i stores hp
          cases h
          have hnd : stores.Nodup := nodup_parseTokens _ _ hp List.nodup_nil
          have hperm := List.perm_insertionSort (· ≤ ·) stores
          have hnd' : (pySorted stores).Nodup := hperm.nodup_iff.mpr hnd
          exact List.Sorted.lt_of_le (List.sorted_insertionSort _ stores) hnd'
        · exact absurd h (by simp)
        · exact absurd h (by simp)

theorem C3_parse_result_strictly_ascending_witness :
    List.Sorted (· < ·) ([1, 2] : List Int) :=
  C3_parse_result_strictly_ascending (some (" 2 , 1 ,2".toList)) [1, 2] (by decide)

/-- C3 counterexample: the expression `0,-3` is accepted and returns
`[-3, 0]`, whose elements are not positive integers, refuting the
"every element is a positive integer (>= 1)" part of the claim. -/
theorem C3_counterexample_nonpositive_stores :
    _ParseVssStores (some ("0,-3".toList)) = .ok [-3, 0] ∧ ¬(1 ≤ (-3 : Int)) :=
  ⟨by decide, by decide⟩

/-! Digit and rendering lemmas for the parse-render round trip. -/

theorem digitVal?_digitChar {d : Nat} (h : d < 10) :
    digitVal? (Nat.digitChar d) = some d := by
  interval_cases d <;> decide

theorem digitChar_bounds {d : Nat} (h : d < 10) :
    '0' ≤ Nat.digitChar d ∧ Nat.digitChar d ≤ '9' := by
  interval_cases d <;> decide

theorem natDigits_mem {n : Nat} {c : Char} (h : c ∈ natDigits n) :
    '0' ≤ c ∧ c ≤ '9' := by
  induction n using Nat.strong_induction_on with
  | _ n ih =>
      rw [natDigits] at h
      split at h
      · next hlt =>
          simp only [List.mem_singleton] at h
          exact h ▸ digitChar_bounds hlt
      · next hge =>
          rw [List.mem_append, List.mem_singleton] at h
          rcases h with h | h
          · exact ih (n / 10) (Nat.div_lt_self (by omega) (by omega)) h
          · exact h ▸ digitChar_bounds (Nat.mod_lt _ (by omega))

theorem natDigits_ne_nil (n : Nat) : natDigits n ≠ [] := by
  rw [natDigits]
  split
  · simp
  · simp

theorem parseDigitsAux_append (acc : Nat) (xs ys : PyStr) :
    parseDigitsAux acc (xs ++ ys) =
      match parseDigitsAux acc xs with
      | some a => parseDigitsAux a ys
      | none => none := by
  induction xs generalizing acc with
  | nil => rfl
  | cons c cs ih =>
      simp only [List.cons_append, parseDigitsAux]
      cases digitVal? c with
      | some d => exact ih _
      | none => rfl

theorem parseDigitsAux_natDigits (n : Nat) : ∀ acc,
    parseDigitsAux acc (natDigits n) =
      some (acc * 10 ^ (natDigits n).length + n) := by
  induction n using Nat.strong_induction_on with
  | _ n ih =>
      intro acc
      rw [natDigits]
      split
      · next hlt =>
          simp only [parseDigitsAux, digitVal?_digitChar hlt, List.length_singleton]
          norm_num
      · next hge =>
          have hdiv : n / 10 < n := Nat.div_lt_self (by omega) (by omega)
          rw [parseDigitsAux_append, ih (n / 10) hdiv acc]
          simp only [parseDigitsAux, digitVal?_digitChar (Nat.mod_lt n (by omega)),
            List.length_append, List.length_singleton]
          have hdm : n / 10 * 10 + n % 10 = n := by omega
          have hpow : (10 : Nat) ^ ((natDigits (n / 10)).length + 1) =
              10 ^ (natDigits (n / 10)).length * 10 := pow_succ 10 _
          rw [hpow]
          congr 1
          calc (acc * 10 ^ (natDigits (n / 10)).length + n / 10) * 10 + n % 10
              = acc * (10 ^ (natDigits (n / 10)).length * 10) +
                  (n / 10 * 10 + n % 10) := by ring
            _ = acc * (10 ^ (natDigits (n / 10)).length * 10) + n := by rw [hdm]

theorem parseDigits_natDigits (n : Nat) : parseDigits (natDigits n) = some n := by
  rcases hd : natDigits n with _ | ⟨c, cs⟩
  · exact absurd hd (natDigits_ne_nil n)
  · have := parseDigitsAux_natDigits n 0
    rw [hd] at this
    simpa [parseDigits] using this

theorem dropWhile_eq_self_of_none {p : Char → Bool} {l : PyStr}
    (h : ∀ c ∈ l, p c = false) : l.dropWhile p = l := by
  cases l with
  | nil => rfl
  | cons c cs =>
      rw [List.dropWhile_cons, h c (List.mem_cons_self c cs)]
      simp

theorem pyStrip_eq_self {l : PyStr} (h : ∀ c ∈ l, pyWS c = false) :
    pyStrip l = l := by
  unfold pyStrip
  rw [dropWhile_eq_self_of_none h,
    dropWhile_eq_self_of_none (fun c hc => h c (List.mem_reverse.mp hc)),
    List.reverse_reverse]

theorem pyWS_eq_false_of_ge_zero {c : Char} (h : '0' ≤ c) : pyWS c = false := by
  by_contra hb
  rw [Bool.not_eq_false] at hb
  simp only [pyWS, Bool.or_eq_true, beq_iff_eq] at hb
  rcases hb with ((((rfl | rfl) | rfl) | rfl) | rfl) | rfl <;>
    exact absurd h (by decide)

theorem intToPyStr_mem {i : Int} {c : Char} (h : c ∈ intToPyStr i) :
    c = '-' ∨ ('0' ≤ c ∧ c ≤ '9') := by
  unfold intToPyStr at h
  split at h
  · rcases List.mem_cons.mp h with h | h
    · exact Or.inl h
    · exact Or.inr (natDigits_mem h)
  · exact Or.inr (natDigits_mem h)

theorem intToPyStr_not_ws {i : Int} {c : Char} (h : c ∈ intToPyStr i) :
    pyWS c = false := by
  rcases intToPyStr_mem h with rfl | ⟨h1, _⟩
  · decide
  · exact pyWS_eq_false_of_ge_zero h1

theorem intToPyStr_not_dot {i : Int} {c : Char} (h : c ∈ intToPyStr i) :
    c ≠ '.' := by
  rcases intToPyStr_mem h with rfl | ⟨h1, h2⟩
  · decide
  · rintro rfl
    exact absurd h1 (by decide)

theorem intToPyStr_not_comma {i : Int} {c : Char} (h : c ∈ intToPyStr i) :
    c ≠ ',' := by
  rcases intToPyStr_mem h with rfl | ⟨h1, h2⟩
  · decide
  · rintro rfl
    exact absurd h1 (by decide)

theorem hasDotDot_eq_false {l : PyStr} (h : ∀ c ∈ l, c ≠ '.') :
    hasDotDot l = false := by
  induction l with
  | nil => rfl
  | cons c rest ih =>
      cases rest with
      | nil => rfl
      | cons c2 rest' =>
          have hc : ¬(c = '.' ∧ c2 = '.') := by
            rintro ⟨rfl, -⟩
            exact h '.' (List.mem_cons_self _ _) rfl
          simp only [hasDotDot, if_neg hc]
          exact ih fun x hx => h x (List.mem_cons_of_mem _ hx)

theorem pyInt?_intToPyStr (i : Int) : pyInt? (intToPyStr i) = some i := by
  unfold pyInt?
  rw [pyStrip_eq_self (fun c hc => intToPyStr_not_ws hc)]
  by_cases hneg : i < 0
  · rw [intToPyStr, if_pos hneg]
    simp only [eq_self_iff_true, if_true, parseDigits_natDigits, Option.map_some']
    congr 1
    omega
  · rw [intToPyStr, if_neg hneg]
    rcases hd : natDigits i.toNat with _ | ⟨c, cs⟩
    · exact absurd hd (natDigits_ne_nil _)
    · have hc : '0' ≤ c ∧ c ≤ '9' := natDigits_mem (hd ▸ List.mem_cons_self c cs)
      have hc1 : ¬(c = '-') := by
        rintro rfl
        exact absurd hc.1 (by decide)
      have hc2 : ¬(c = '+') := by
        rintro rfl
        exact absurd hc.1 (by decide)
      simp only [if_neg hc1, if_neg hc2, ← hd, parseDigits_natDigits,
        Option.map_some']
      congr 1
      omega

theorem processToken_intToPyStr (stores : List Int) (i : Int) :
    processToken stores (intToPyStr i) = .ok (addStore stores i) := by
  unfold processToken
  rw [hasDotDot_eq_false (fun c hc => intToPyStr_not_dot hc)]
  simp only [Bool.false_eq_true, if_false, pyInt?_intToPyStr]

theorem parseTokens_map_intToPyStr (L : List Int) :
    ∀ stores, parseTokens stores (L.map intToPyStr) =
      .ok (L.foldl addStore stores) := by
  induction L with
  | nil => exact fun _ => rfl
  | cons i L ih =>
      intro stores
      simp only [List.map_cons, parseTokens, List.foldl_cons,
        processToken_intToPyStr]
      exact ih _

theorem pySplitComma_append {t : PyStr} (ht : ∀ c ∈ t, c ≠ ',') :
    ∀ {cs hd tl : _}, pySplitComma cs = hd :: tl →
      pySplitComma (t ++ cs) = (t ++ hd) :: tl := by
  induction t with
  | nil => exact fun h => h
  | cons c t' ih =>
      intro cs hd tl hcs
      have hc : ¬(c = ',') := ht c (List.mem_cons_self _ _)
      simp only [List.cons_append, pySplitComma, if_neg hc]
      rw [List.append_eq, ih (fun x hx => ht x (List.mem_cons_of_mem _ hx)) hcs]

theorem pySplitComma_joinComma :
    ∀ tokens : List PyStr, tokens ≠ [] →
      (∀ t ∈ tokens, ∀ c ∈ t, c ≠ ',') →
      pySplitComma (joinComma tokens) = tokens := by
  intro tokens
  induction tokens with
  | nil => exact fun h _ => absurd rfl h
  | cons t rest ih =>
      intro _ hcf
      cases rest with
      | nil =>
          have := @pySplitComma_append t (hcf t (List.mem_cons_self _ _))
            [] [] [] rfl
          simpa [joinComma] using this
      | cons t2 rest' =>
          have hrec : pySplitComma (joinComma (t2 :: rest')) = t2 :: rest' :=
            ih (by simp) (fun x hx => hcf x (List.mem_cons_of_mem _ hx))
          have hcomma : pySplitComma (',' :: joinComma (t2 :: rest')) =
              [] :: t2 :: rest' := by
            simp [pySplitComma, hrec]
          have := pySplitComma_append (hcf t (List.mem_cons_self _ _)) hcomma
          simpa [joinComma] using this

theorem renderVss_ne_nil {L : List Int} (h : L ≠ []) : renderVss L ≠ [] := by
  cases L with
  | nil => exact absurd rfl h
  | cons i L' =>
      cases L' with
      | nil =>
          show joinComma [intToPyStr i] ≠ []
          simp only [joinComma, intToPyStr]
          split
        
          · simp
          · exact natDigits_ne_nil _
      | cons j L'' =>
          show intToPyStr i ++ ',' :: _ ≠ []
          simp

theorem foldl_addStore_of_fresh :
    ∀ (l : List Int) (acc : List Int), l.Nodup → (∀ x ∈ l, x ∉ acc) →
      l.foldl addStore acc = acc ++ l := by
  intro l
  induction l with
  | nil => intro acc _ _; simp
  | cons a l ih =>
      intro acc hnd hfresh
      have ha : a ∉ acc := hfresh a (List.mem_cons_self _ _)
      have hstep : addStore acc a = acc ++ [a] := by
        rw [addStore, if_neg ha]
      rw [List.foldl_cons, hstep, ih (acc ++ [a]) (List.Nodup.of_cons hnd)]
      · simp
      · intro x hx
        rw [List.mem_append, List.mem_singleton]
        rintro (hx' | rfl)
        · exact hfresh x (List.mem_cons_of_mem _ hx) hx'
        · exact (List.nodup_cons.mp hnd).1 hx

theorem dedupStores_eq_self {l : List Int} (h : l.Nodup) : dedupStores l = l := by
  unfold dedupStores
  rw [foldl_addStore_of_fresh l [] h (by simp)]
  simp

/-- C9: parsing the rendered comma-separated expression of any integer
list reproduces the sorted, deduplicated set of that list, and
`sorted(dedup(.))` is idempotent, so parse-after-render is the identity
on already-parsed output. -/
theorem C9_parse_render_roundtrip :
    (∀ L : List Int, _ParseVssStores (some (renderVss L)) = .ok (sortedDedup L)) ∧
    (∀ L : List Int, sortedDedup (sortedDedup L) = sortedDedup L) := by
  constructor
  · intro L
    cases L with
    | nil => rfl
    | cons i L' =>
        have hne : renderVss (i :: L') ≠ [] := renderVss_ne_nil (by simp)
        have hsplit : pySplitComma (renderVss (i :: L')) =
            (i :: L').map intToPyStr := by
          apply pySplitComma_joinComma
          · simp
          · intro t ht c hc
            rw [List.mem_map] at ht
            obtain ⟨j, -, rfl⟩ := ht
            exact intToPyStr_not_comma hc
        simp only [_ParseVssStores, List.isEmpty_iff, if_neg hne, hsplit,
          parseTokens_map_intToPyStr]
        rfl
  · intro L
    have hnd : (sortedDedup L).Nodup := by
      have hnd0 : (dedupStores L).Nodup := nodup_foldl_addStore L [] List.nodup_nil
      exact (List.perm_insertionSort (· ≤ ·) (dedupStores L)).nodup_iff.mpr hnd0
    have hsorted : (sortedDedup L).Sorted (· ≤ ·) :=
      List.sorted_insertionSort (· ≤ ·) (dedupStores L)
    show pySorted (dedupStores (sortedDedup L)) = sortedDedup L
    rw [dedupStores_eq_self hnd]
    exact hsorted.insertionSort_eq

theorem C9_parse_render_roundtrip_witness :
    _ParseVssStores (some (renderVss [3, 1, 3])) = .ok [1, 3] := by
  have h := C9_parse_render_roundtrip.1 [3, 1, 3]
  exact h

/-! Lemmas about the interactive prompt loops. -/

theorem promptLoop_selected_mem {ids : List PyStr} :
    ∀ {inputs : List (Option PyStr)} {id : PyStr} {rest : List (Option PyStr)},
      promptLoop ids inputs = .selected id rest → id ∈ ids := by
  intro inputs
  induction inputs with
  | nil => intro id rest h; exact absurd h (by simp [promptLoop])
  | cons x inputs' ih =>
      intro id rest h
      cases x with
      | none => exact absurd h (by simp [promptLoop])
      | some s =>
          by_cases hmem : pyStrip s ∈ ids
          · rw [promptLoop, if_pos hmem] at h
            cases h
            exact hmem
          · rw [promptLoop, if_neg hmem] at h
            exact ih h

theorem promptLoop_blocked_of_all_invalid {ids : List PyStr} :
    ∀ {inputs : List (Option PyStr)},
      (∀ x ∈ inputs, ∃ s, x = some s ∧ pyStrip s ∉ ids) →
      promptLoop ids inputs = .blocked := by
  intro inputs
  induction inputs with
  | nil => intro _; rfl
  | cons x inputs' ih =>
      intro h
      obtain ⟨s, rfl, hnot⟩ := h x (List.mem_cons_self _ _)
      rw [promptLoop, if_neg hnot]
      exact ih fun y hy => h y (List.mem_cons_of_mem _ hy)

theorem vssPromptLoop_selection_subset {normalized : List Int} :
    ∀ {inputs : List (Option PyStr)} {sel : List Int}
      {rest : List (Option PyStr)},
      vssPromptLoop normalized inputs = .selection sel rest →
      ∀ n ∈ sel, n ∈ normalized := by
  intro inputs
  induction inputs with
  | nil => intro sel rest h; exact absurd h (by simp [vssPromptLoop])
  | cons x inputs' ih =>
      intro sel rest h
      cases x with
      | none => exact absurd h (by simp [vssPromptLoop])
      | some s =>
          rw [vssPromptLoop] at h
          split at h
          · cases h
            intro n hn
            exact absurd hn (List.not_mem_nil n)
          · split at h
            · exact absurd h (by simp)
            · cases h
              intro n hn
              exact absurd hn (List.not_mem_nil n)
            · split at h
              · next hall =>
                  cases h
                  intro n hn
                  have := List.all_eq_true.mp hall n hn
                  exact of_decide_eq_true this
              · exact ih h

theorem vssPromptLoop_reprompt {normalized : List Int} {s : PyStr}
    {rest : List (Option PyStr)} {sel : List Int}
    (hne : (pyStrip s).isEmpty = false)
    (hparse : _ParseVssStores (some (pyStrip s)) = .ok sel)
    (hout : ¬ ∀ n ∈ sel, n ∈ normalized) :
    vssPromptLoop normalized (some s :: rest) = vssPromptLoop normalized rest := by
  have hall : (sel.all fun n => n ∈ normalized) = false := by
    rw [Bool.eq_false_iff]
    intro hc
    exact hout fun n hn => of_decide_eq_true (List.all_eq_true.mp hc n hn)
  rw [vssPromptLoop, if_neg (by rw [hne]; exact Bool.false_ne_true), hparse]
  simp [hall]

/-- C5: when a partition table is found, `_GetVolumeTSKPartition`
resolves to exactly one child volume in priority order: (a) an explicit
partition number `n > 0` selects the volume at 0-based index `n - 1`;
(b) otherwise an explicit byte offset selects the first volume whose
first extent offset equals it; (c) otherwise a single listed partition
is auto-selected without touching the input reader; (d) otherwise the
user is prompted until a listed identifier is typed (never an unlisted
one) or the scan is aborted. -/
theorem C5_partition_resolution_priority (volumes : List TSKVolume)
    (ids : List PyStr) (subNode : PyStr → Option Nat)
    (inputs : List (Option PyStr)) (hids : ids ≠ []) :
    (∀ (n : Int) (v : TSKVolume) (node : Nat) (po : Option Int), 0 < n →
      volumes[(n - 1).toNat]? = some v →
      subNode ('/' :: v.identifier) = some node →
      _GetVolumeTSKPartition true volumes ids subNode (some n) po inputs =
        (.volume node, inputs)) ∧
    (∀ (pn : Option Int) (off : Int) (v : TSKVolume) (node : Nat),
      tryPartitionNumber volumes subNode pn = none →
      volumes.find? (fun v => v.extentOffset == off) = some v →
      subNode ('/' :: v.identifier) = some node →
      _GetVolumeTSKPartition true volumes ids subNode pn (some off) inputs =
        (.volume node, inputs)) ∧
    (∀ (pn po : Option Int) (id : PyStr) (node : Nat),
      tryPartitionNumber volumes subNode pn = none →
      tryPartitionOffset volumes subNode po = none →
      ids = [id] → subNode ('/' :: id) = some node →
      _GetVolumeTSKPartition true volumes ids subNode pn po inputs =
        (.volume node, inputs)) ∧
    (∀ (pn po : Option Int),
      tryPartitionNumber volumes subNode pn = none →
      tryPartitionOffset volumes subNode po = none →
      2 ≤ ids.length →
      (∀ id ∈ ids, ∃ v, volumes.find? (fun v => v.identifier == id) = some v) →
      (∀ (id : PyStr) (rest : List (Option PyStr)),
        promptLoop ids inputs = .selected id rest →
        id ∈ ids ∧
          _GetVolumeTSKPartition true volumes ids subNode pn po inputs =
            (resolveLocation subNode id, rest)) ∧
      (promptLoop ids inputs = .blocked →
        _GetVolumeTSKPartition true volumes ids subNode pn po inputs =
          (.blocked, [])) ∧
      (∀ rest, promptLoop ids inputs = .interrupted rest →
        _GetVolumeTSKPartition true volumes ids subNode pn po inputs =
          (.scanAborted, rest))) := by
  have hempty : ids.isEmpty = false := by
    cases ids with
    | nil => exact absurd rfl hids
    | cons a l => rfl
  refine ⟨?_, ?_, ?_, ?_⟩
  · intro n v node po h0 hv hsub
    have htry : tryPartitionNumber volumes subNode (some n) =
        some (.volume node) := by
      simp only [tryPartitionNumber, if_pos h0, hv, resolveLocation, hsub]
    simp [_GetVolumeTSKPartition, hempty, htry]
  · intro pn off v node hpn hfind hsub
    have htry : tryPartitionOffset volumes subNode (some off) =
        some (.volume node) := by
      simp only [tryPartitionOffset, hfind, resolveLocation, hsub]
    simp [_GetVolumeTSKPartition, hempty, hpn, htry]
  · intro pn po id node hpn hpo hid hsub
    subst hid
    simp [_GetVolumeTSKPartition, hpn, hpo, resolveLocation, hsub]
  · intro pn po hpn hpo hlen hvol
    have hlen1 : ¬ ids.length = 1 := by omega
    have hlisting :
        (ids.any fun id =>
          (volumes.find? fun v => v.identifier == id).isNone) = false := by
      rw [List.any_eq_false]
      intro id hid
      obtain ⟨v, hv⟩ := hvol id hid
      simp [hv]
    refine ⟨?_, ?_, ?_⟩
    · intro id rest hsel
      have hmem : id ∈ ids := promptLoop_selected_mem hsel
      obtain ⟨v, hv⟩ := hvol id hmem
      refine ⟨hmem, ?_⟩
      simp [_GetVolumeTSKPartition, hempty, hpn, hpo, hlen1,
        _GetPartionIdentifierFromUser, hlisting, hsel, hv]
    · intro hsel
      simp [_GetVolumeTSKPartition, hempty, hpn, hpo, hlen1,
        _GetPartionIdentifierFromUser, hlisting, hsel]
    · intro rest hsel
      simp [_GetVolumeTSKPartition, hempty, hpn, hpo, hlen1,
        _GetPartionIdentifierFromUser, hlisting, hsel]

theorem C5_partition_resolution_priority_witness :
    _GetVolumeTSKPartition true
      [⟨"p1".toList, 512⟩, ⟨"p2".toList, 1024⟩]
      ["p1".toList, "p2".toList]
      (fun s => if s = "/p1".toList then some 1
        else if s = "/p2".toList then some 2 else none)
      (some 2) none [] = (.volume 2, []) :=
  (C5_partition_resolution_priority
      [⟨"p1".toList, 512⟩, ⟨"p2".toList, 1024⟩]
      ["p1".toList, "p2".toList]
      (fun s => if s = "/p1".toList then some 1
        else if s = "/p2".toList then some 2 else none)
      [] (by decide)).1 2 ⟨"p2".toList, 1024⟩ 2 none (by decide) (by decide)
      (by decide)

/-- C7 (amended): the partition prompt loop never returns an identifier
that is not among the listed identifiers and re-prompts (never returns)
as long as every response is outside the listed set; the VSS prompt
loop never returns a selection containing a store outside the
normalized set, and a parseable selection with an out-of-set store
causes another prompt cycle.  (An empty or unparseable VSS response,
however, returns the empty selection immediately — see the
counterexample.) -/
theorem C7_reprompt_until_valid (ids : List PyStr) (normalized : List Int)
    (inputs : List (Option PyStr)) :
    (∀ (id : PyStr) (rest : List (Option PyStr)),
      promptLoop ids inputs = .selected id rest → id ∈ ids) ∧
    ((∀ x ∈ inputs, ∃ s, x = some s ∧ pyStrip s ∉ ids) →
      promptLoop ids inputs = .blocked) ∧
    (∀ (sel : List Int) (rest : List (Option PyStr)),
      vssPromptLoop normalized inputs = .selection sel rest →
      ∀ n ∈ sel, n ∈ normalized) ∧
    (∀ (s : PyStr) (rest : List (Option PyStr)) (sel : List Int),
      (pyStrip s).isEmpty = false →
      _ParseVssStores (some (pyStrip s)) = .ok sel →
      ¬ (∀ n ∈ sel, n ∈ normalized) →
      vssPromptLoop normalized (some s :: rest) = vssPromptLoop normalized rest) :=
  ⟨fun _ _ h => promptLoop_selected_mem h,
   promptLoop_blocked_of_all_invalid,
   fun _ _ h => vssPromptLoop_selection_subset h,
   fun _ _ _ hne hp hout => vssPromptLoop_reprompt hne hp hout⟩

theorem C7_reprompt_until_valid_witness :
    promptLoop ["p1".toList, "p2".toList] [some "zzz".toList] = .blocked :=
  (C7_reprompt_until_valid ["p1".toList, "p2".toList] [1, 2]
      [some "zzz".toList]).2.1
    (by
      intro x hx
      rw [List.mem_singleton] at hx
      subst hx
      exact ⟨"zzz".toList, rfl, by decide⟩)

/-- C7 counterexample: with the two listed stores `vss1`, `vss2`
(normalized `[1, 2]`) and the single response `foo` — a response
outside the listed set — the VSS selection returns the empty selection
immediately instead of issuing another prompt cycle, because the caught
`BadConfigOption` replaces the selection with `[]`, whose set
difference against the normalized identifiers is empty. -/
theorem C7_counterexample_unparseable_response_returns :
    _GetVssStoreIdentifiersFromUser [⟨"vss1".toList⟩, ⟨"vss2".toList⟩]
      ["vss1".toList, "vss2".toList] none [some "foo".toList] =
      .selection [] [] := by decide

/-- C6 (amended): a source exposing exactly one partition is resolved
by auto-selecting that partition with the input reader untouched; a
single VSS store, by contrast, is only resolved without reading when a
truthy preferred-store hint contained in the normalized identifiers is
supplied — without such a hint the VSS path always prompts (see the
counterexample). -/
theorem C6_single_candidate_resolution (volumes : List TSKVolume)
    (vssVolumes : List VssVolume) :
    (∀ (id : PyStr) (subNode : PyStr → Option Nat)
      (inputs : List (Option PyStr)),
      _GetVolumeTSKPartition true volumes [id] subNode none none inputs =
        (resolveLocation subNode id, inputs)) ∧
    (∀ (ids : List PyStr) (hint normalized : List Int)
      (inputs : List (Option PyStr)),
      normalizeVssIds vssVolumes ids = some normalized →
      hint ≠ [] → (∀ n ∈ hint, n ∈ normalized) →
      _GetVssStoreIdentifiersFromUser vssVolumes ids (some hint) inputs =
        .selection hint inputs) := by
  constructor
  · intro id subNode inputs
    simp [_GetVolumeTSKPartition, tryPartitionNumber, tryPartitionOffset]
  · intro ids hint normalized inputs hnorm hne hsub
    have hempty : hint.isEmpty = false := by
      cases hint with
      | nil => exact absurd rfl hne
      | cons a l => rfl
    have hall : (hint.all fun n => n ∈ normalized) = true :=
      List.all_eq_true.mpr fun n hn => decide_eq_true (hsub n hn)
    simp [_GetVssStoreIdentifiersFromUser, hnorm, hempty, hall]

theorem C6_single_candidate_resolution_witness :
    _GetVolumeTSKPartition true [⟨"p1".toList, 512⟩] ["p1".toList]
      (fun s => if s = "/p1".toList then some 1 else none) none none
      [some "x".toList] =
      (.volume 1, [some "x".toList]) ∧
    _GetVssStoreIdentifiersFromUser [⟨"vss1".toList⟩] ["vss1".toList]
      (some [1]) [some "x".toList] = .selection [1] [some "x".toList] := by
  constructor
  · have h := (C6_single_candidate_resolution [⟨"p1".toList, 512⟩] []).1
      "p1".toList (fun s => if s = "/p1".toList then some 1 else none)
      [some "x".toList]
    exact h
  · exact (C6_single_candidate_resolution [] [⟨"vss1".toList⟩]).2
      ["vss1".toList] [1] [1] [some "x".toList] (by decide) (by decide)
      (by decide)

/-- C6 counterexample: a volume system exposing exactly one VSS store
(`vss1`) with no preferred-store hint does not resolve without reading:
with no input available the selection loop blocks waiting on the input
reader instead of returning the single store. -/
theorem C6_counterexample_single_vss_store_still_prompts :
    _GetVssStoreIdentifiersFromUser [⟨"vss1".toList⟩] ["vss1".toList] none [] =
      .blocked := by decide

/-! Lemmas about the multi-process drain loop. -/

theorem scanStep_none_reconciled {e : WorkerEntry}
    (h : (scanStep e).2 = none) :
    MPEvent.reconciled e.name ∈ (scanStep e).1 := by
  by_cases hm : e.monitored
  · by_cases ha : wIsAlive e
    · exact absurd h (by simp [scanStep, hm, ha])
    · by_cases hx : e.proc.exitcode = 0
      · simp [scanStep, hm, ha, hx]
      · exact absurd h (by simp [scanStep, hm, ha, hx])
  · simp [scanStep, hm]

theorem scanStep_some_name {e e' : WorkerEntry}
    (h : (scanStep e).2 = some e') : e'.name = e.name := by
  by_cases hm : e.monitored
  · by_cases ha : wIsAlive e
    · have h2 : (scanStep e).2 = some { e with polls := e.polls + 1 } := by
        simp [scanStep, hm, ha]
      rw [h2] at h
      cases h
      rfl
    · by_cases hx : e.proc.exitcode = 0
      · exact absurd h (by simp [scanStep, hm, ha, hx])
      · have h2 : (scanStep e).2 = some { e with monitored := false } := by
          simp [scanStep, hm, ha, hx]
        rw [h2] at h
        cases h
        rfl
  · exact absurd h (by simp [scanStep, hm])

theorem drainLoop_succ_cons {fuel : Nat} {e0 : WorkerEntry}
    {rest : List WorkerEntry} {evs1 : List MPEvent}
    {survivors : List WorkerEntry}
    (hall : scanAll (e0 :: rest) = (evs1, survivors)) :
    drainLoop (fuel + 1) (e0 :: rest) =
      match drainLoop fuel survivors with
      | some evs' => some (evs1 ++ evs')
      | none => none := by
  rw [drainLoop, hall]

theorem scanAll_mem :
    ∀ {entries : List WorkerEntry} {evs : List MPEvent}
      {survivors : List WorkerEntry},
      scanAll entries = (evs, survivors) →
      ∀ e ∈ entries, MPEvent.reconciled e.name ∈ evs ∨
        ∃ e' ∈ survivors, e'.name = e.name := by
  intro entries
  induction entries with
  | nil =>
      intro evs survivors _ e he
      exact absurd he (List.not_mem_nil e)
  | cons e0 rest ih =>
      intro evs survivors h e he
      rcases hstep : scanStep e0 with ⟨evs1, eopt⟩
      rcases hall : scanAll rest with ⟨evs2, rest'⟩
      have hform : scanAll (e0 :: rest) = (evs1 ++ evs2, eopt.toList ++ rest') := by
        simp [scanAll, hstep, hall]
      rw [hform] at h
      cases h
      rcases List.mem_cons.mp he with rfl | he'
      · cases eopt with
        | none =>
            left
            have := scanStep_none_reconciled (by rw [hstep])
            rw [hstep] at this
            exact List.mem_append_left _ this
        | some e1 =>
            right
            refine ⟨e1, by simp, ?_⟩
            exact @scanStep_some_name e e1 (by rw [hstep])
      · rcases ih hall e he' with hrec | ⟨e', he'', hn⟩
        · exact Or.inl (List.mem_append_right _ hrec)
        · exact Or.inr ⟨e', by simp [he''], hn⟩

theorem drainLoop_reconciles :
    ∀ (fuel : Nat) (entries : List WorkerEntry) (evs : List MPEvent),
      drainLoop fuel entries = some evs →
      ∀ e ∈ entries, MPEvent.reconciled e.name ∈ evs := by
  intro fuel
  induction fuel with
  | zero =>
      intro entries evs h e he
      cases entries with
      | nil => exact absurd he (List.not_mem_nil e)
      | cons e0 rest => exact absurd h (by simp [drainLoop])
  | succ fuel ih =>
      intro entries evs h e he
      cases entries with
      | nil => exact absurd he (List.not_mem_nil e)
      | cons e0 rest =>
          rcases hall : scanAll (e0 :: rest) with ⟨evs1, survivors⟩
          rw [drainLoop_succ_cons hall] at h
          cases hd : drainLoop fuel survivors <;> rw [hd] at h
          · exact absurd h (by simp)
          · next evs' =>
              have h' : some (evs1 ++ evs') = some evs := h
              cases h'
              rcases scanAll_mem hall e he with hrec | ⟨e', he', hname⟩
              · exact List.mem_append_left _ hrec
              · have := ih survivors evs' hd e' he'
                rw [hname] at this
                exact List.mem_append_right _ this

theorem mkEntries_exists_name (rf : Bool) :
    ∀ (ws : List WorkerProc) (i j : Nat), j < ws.length →
      ∃ e ∈ mkEntries rf i ws, e.name = i + j := by
  intro ws
  induction ws with
  | nil =>
      intro i j h
      exact absurd h (by simp)
  | cons p ps ih =>
      intro i j h
      cases j with
      | zero =>
          refine ⟨⟨i, p, 0, rf⟩, List.mem_cons_self _ _, ?_⟩
          show i = i + 0
          omega
      | succ j' =>
          obtain ⟨e, he, hn⟩ := ih (i + 1) j' (by simpa using h)
          exact ⟨e, List.mem_cons_of_mem _ he, by omega⟩

theorem scanStep_events_not_final {e : WorkerEntry} {ev : MPEvent}
    (h : ev ∈ (scanStep e).1) :
    ev ≠ .signalEndOfInputStorageQueue ∧ ev ≠ .storageJoined := by
  by_cases hm : e.monitored
  · by_cases ha : wIsAlive e
    · simp [scanStep, hm, ha] at h
      rcases h with rfl | rfl <;> exact ⟨by simp, by simp⟩
    · by_cases hx : e.proc.exitcode = 0
      · simp [scanStep, hm, ha, hx] at h
        rcases h with rfl | rfl <;> exact ⟨by simp, by simp⟩
      · simp [scanStep, hm, ha, hx] at h
        subst h
        exact ⟨by simp, by simp⟩
  · by_cases ha : wIsAlive e
    · simp [scanStep, hm, ha] at h
      rcases h with rfl | rfl <;> exact ⟨by simp, by simp⟩
    · simp [scanStep, hm, ha] at h
      subst h
      exact ⟨by simp, by simp⟩

theorem scanAll_events_not_final :
    ∀ {entries : List WorkerEntry} {evs : List MPEvent}
      {survivors : List WorkerEntry},
      scanAll entries = (evs, survivors) →
      ∀ ev ∈ evs, ev ≠ .signalEndOfInputStorageQueue ∧ ev ≠ .storageJoined := by
  intro entries
  induction entries with
  | nil =>
      intro evs survivors h ev hev
      cases h
      exact absurd hev (List.not_mem_nil ev)
  | cons e0 rest ih =>
      intro evs survivors h ev hev
      rcases hstep : scanStep e0 with ⟨evs1, eopt⟩
      rcases hall : scanAll rest with ⟨evs2, rest'⟩
      have hform : scanAll (e0 :: rest) = (evs1 ++ evs2, eopt.toList ++ rest') := by
        simp [scanAll, hstep, hall]
      rw [hform] at h
      cases h
      rcases List.mem_append.mp hev with h1 | h2
      · have : ev ∈ (scanStep e0).1 := by rw [hstep]; exact h1
        exact scanStep_events_not_final this
      · exact ih hall ev h2

theorem drainLoop_events_not_final :
    ∀ (fuel : Nat) (entries : List WorkerEntry) (evs : List MPEvent),
      drainLoop fuel entries = some evs →
      ∀ ev ∈ evs, ev ≠ .signalEndOfInputStorageQueue ∧ ev ≠ .storageJoined := by
  intro fuel
  induction fuel with
  | zero =>
      intro entries evs h ev hev
      cases entries with
      | nil =>
          cases h
          exact absurd hev (List.not_mem_nil ev)
      | cons e0 rest => exact absurd h (by simp [drainLoop])
  | succ fuel ih =>
      intro entries evs h ev hev
      cases entries with
      | nil =>
          cases h
          exact absurd hev (List.not_mem_nil ev)
      | cons e0 rest =>
          rcases hall : scanAll (e0 :: rest) with ⟨evs1, survivors⟩
          rw [drainLoop_succ_cons hall] at h
          cases hd : drainLoop fuel survivors <;> rw [hd] at h
          · exact absurd h (by simp)
          · next evs' =>
              have h' : some (evs1 ++ evs') = some evs := h
              cases h'
              rcases List.mem_append.mp hev with h1 | h2
              · exact scanAll_events_not_final hall ev h1
              · exact ih survivors evs' hd ev h2

theorem collectLoop_events_not_final (rf : Bool) :
    ∀ (k : Nat), ∀ ev ∈ collectLoop rf k,
      ev ≠ .signalEndOfInputStorageQueue ∧ ev ≠ .storageJoined := by
  intro k
  induction k with
  | zero =>
      intro ev hev
      exact absurd hev (List.not_mem_nil ev)
  | succ k ih =>
      intro ev hev
      simp only [collectLoop, List.mem_cons, List.mem_append] at hev
      rcases hev with rfl | hev
      · exact ⟨by simp, by simp⟩
      · rcases hev with hev | hev
        · cases rf <;> simp at hev
          subst hev
          exact ⟨by simp, by simp⟩
        · exact ih ev hev

theorem startEvents_not_final {n : Nat} {ev : MPEvent}
    (h : ev ∈ startEvents n) :
    ev ≠ .signalEndOfInputStorageQueue ∧ ev ≠ .storageJoined := by
  simp [startEvents] at h
  rcases h with rfl | rfl | ⟨i, -, rfl⟩ <;> exact ⟨by simp, by simp⟩

/-- C1: in every completed multi-process run, the end-of-input signal
on the storage queue is issued strictly after the collector process has
exited and after every worker of the initial pool has been reconciled
(removed from the tracked set, with termination recorded when needed);
only then is the storage process joined, as the final step. -/
theorem C1_storage_signal_after_full_reconciliation
    (rf : Bool) (ci fuel : Nat) (ws : List WorkerProc)
    (trace : List MPEvent)
    (h : multiProcessRun rf ci ws fuel = some trace) :
    ∃ pre, trace = pre ++ [.signalEndOfInputStorageQueue, .storageJoined] ∧
      MPEvent.collectorExited ∈ pre ∧
      (∀ i, i < ws.length → MPEvent.reconciled i ∈ pre) ∧
      MPEvent.signalEndOfInputStorageQueue ∉ pre ∧
      MPEvent.storageJoined ∉ pre := by
  unfold multiProcessRun at h
  cases hd : drainLoop fuel (mkEntries rf 0 ws) <;> rw [hd] at h
  · exact absurd h (by simp)
  · next drainEvs =>
      cases h
      refine ⟨startEvents ws.length ++ collectLoop rf ci ++ [.collectorExited] ++
        (if rf then [.signalEndOfProcessing] else []) ++ drainEvs, ?_, ?_, ?_, ?_, ?_⟩
      · simp [List.append_assoc]
      · simp
      · intro i hi
        obtain ⟨e, he, hn⟩ := mkEntries_exists_name rf ws 0 i hi
        have := drainLoop_reconciles fuel _ drainEvs hd e he
        rw [hn] at this
        simp only [Nat.zero_add] at this
        simp [this]
      · intro hmem
        simp only [List.mem_append, List.mem_singleton] at hmem
        rcases hmem with (((h1 | h2) | h3) | h4) | h5
        · exact (startEvents_not_final h1).1 rfl
        · exact (collectLoop_events_not_final rf ci _ h2).1 rfl
        · exact absurd h3 (by simp)
        · cases rf <;> simp at h4
        · exact (drainLoop_events_not_final fuel _ drainEvs hd _ h5).1 rfl
      · intro hmem
        simp only [List.mem_append, List.mem_singleton] at hmem
        rcases hmem with (((h1 | h2) | h3) | h4) | h5
        · exact (startEvents_not_final h1).2 rfl
        · exact (collectLoop_events_not_final rf ci _ h2).2 rfl
        · exact absurd h3 (by simp)
        · cases rf <;> simp at h4
        · exact (drainLoop_events_not_final fuel _ drainEvs hd _ h5).2 rfl

theorem C1_storage_signal_after_full_reconciliation_witness :
    ∃ pre,
      (multiProcessRun true 1 [⟨0, 0⟩] 1).getD [] =
        pre ++ [.signalEndOfInputStorageQueue, .storageJoined] ∧
      MPEvent.collectorExited ∈ pre ∧
      (∀ i, i < [(⟨0, 0⟩ : WorkerProc)].length → MPEvent.reconciled i ∈ pre) ∧
      MPEvent.signalEndOfInputStorageQueue ∉ pre ∧
      MPEvent.storageJoined ∉ pre :=
  C1_storage_signal_after_full_reconciliation true 1 1 [⟨0, 0⟩]
    ((multiProcessRun true 1 [⟨0, 0⟩] 1).getD []) (by decide)
